import Mathlib

set_option linter.unusedVariables false

/-!
A shallow embedding of `ssql/query_builder.py` (the semantic-analysis and
tree-construction stage of the tweeql query compiler).

The nested token structure handed over by the external parser is modelled by
`TF` (a Python list whose items are tokens or sublists) and `TVal` (a single
Python value: a token or a list).  `TF` is a cons-encoding of such a list,
so that equality and all functions below are computable by the kernel;
`TF.toList`/`TF.ofList` mediate to ordinary Lean lists.

Python's in-place mutation of token lists and descriptor tables is modelled
by explicit state passing: functions return their transformed structures.
Python exceptions are modelled with `Except`, and the potentially
non-terminating recursion of `__verify_and_fix_field` is modelled with
explicit fuel (`none` = the recursion never comes back).  The recursions
into nested sub-expressions are also fuelled; their wrappers supply a fuel
strictly larger than the token structure's size, which bounds the recursion
depth, so the `fuelOut` error is unreachable through the wrappers.
-/

namespace QueryTokens

/-- Modelled from the spec: the reserved token constants of the grammar
(`QueryTokens` in `ssql/query.py`, a file not under `src/`).  Only their
mutual distinctness and the exact/prefix relation between the two source
names matter to the builder. -/
def TWITTER : String := "twitter"

def TWITTER_SAMPLE : String := "twitter_sample"

def WHERE_CONDITION : String := "WHERE_CONDITION"

def AND : String := "AND"

def OR : String := "OR"

def LPAREN : String := "("

def RPAREN : String := ")"

def AS : String := "AS"

def CONTAINS : String := "contains"

def EQUALS : String := "=="

def EXCLAIM_EQUALS : String := "!="

def EMPTY_STRING : String := ""

end QueryTokens

/-- A Python list of token values, cons-encoded: each item is either a
plain string token (`lcons`) or a sublist (`ncons`). -/
inductive TF where
  | nil : TF
  | lcons : String → TF → TF
  | ncons : TF → TF → TF
deriving DecidableEq, Repr

/-- A single Python value inside the token structure: a string token or a
list. -/
inductive TVal where
  | tok : String → TVal
  | lst : TF → TVal
deriving DecidableEq, Repr

def TF.toList : TF → List TVal
  | .nil => []
  | .lcons s r => .tok s :: r.toList
  | .ncons l r => .lst l :: r.toList

def TF.ofList : List TVal → TF
  | [] => .nil
  | .tok s :: r => .lcons s (TF.ofList r)
  | .lst l :: r => .ncons l (TF.ofList r)

/-- Build a sublist value from its items. -/
def tnode (l : List TVal) : TVal := .lst (TF.ofList l)

/-- A size measure on token structures, bounding the depth of every
recursion below. -/
def TF.tsize : TF → Nat
  | .nil => 1
  | .lcons _ r => 1 + r.tsize
  | .ncons l r => 1 + l.tsize + r.tsize

def TVal.vsize : TVal → Nat
  | .tok _ => 1
  | .lst f => 1 + f.tsize

def sizeVals (l : List TVal) : Nat := (l.map TVal.vsize).sum + 1

/-- `FieldType` from `ssql/field_descriptor.py` (not under `src/`).
Modelled from the spec: one of Raw / Function / Aggregate / Pending
(`UNDEFINED` in the code). -/
inductive FieldType where
  | raw : FieldType
  | function_ : FieldType
  | aggregate : FieldType
  | undefined : FieldType
deriving DecidableEq, Repr

/-- `FieldDescriptor` from `ssql/field_descriptor.py` (not under `src/`).
Modelled from the spec: alias, underlying field aliases, field type, the two
mutually-exclusive opaque registry handles (handles are modelled as
strings), and the visibility flag.  (`alias` is a Lean keyword, hence the
trailing underscore.) -/
structure Fd where
  alias_ : String
  underlyingFields : List String
  fieldType : FieldType
  aggregateFactory : Option String
  function : Option String
  visible : Bool
deriving DecidableEq, Repr

/-- The errors `query_builder.py` can raise.  `QueryException` messages are
mapped to structured constructors; `pyError` stands for a raw Python error
(IndexError and the like) on shapes the grammar never produces, `typeError`
for operations on a value of the wrong dynamic type, and `fuelOut` for
running out of fuel. -/
inductive QErr where
  | unknownSource : String → QErr
  | emptyFieldClause : QErr
  | missingAlias : QErr
  | unknownCallable : String → QErr
  | unresolvable : String → QErr
  | aggregateWithoutWindow : QErr
  | ungroupedSelectField : String → QErr
  | typeError : QErr
  | pyError : QErr
  | fuelOut : QErr
deriving DecidableEq, Repr

/-- `TupleDescriptor` from `ssql/tuple_descriptor.py` (not under `src/`).
Modelled from the spec: an ordered alias-keyed registry of field
descriptors; aliases are unique within a table. -/
structure Td where
  entries : List (String × Fd)
deriving DecidableEq, Repr

def emptyTd : Td := ⟨[]⟩

def lookupFd : List (String × Fd) → String → Option Fd
  | [], _ => none
  | (k, fd) :: rest, a => if k = a then some fd else lookupFd rest a

/-- `TupleDescriptor.get_descriptor`.  Modelled from the spec: return the
descriptor registered under the alias, or `none`. -/
def Td.get (td : Td) (a : String) : Option Fd := lookupFd td.entries a

def addEntry : List (String × Fd) → Fd → List (String × Fd)
  | [], fd => [(fd.alias_, fd)]
  | (k, old) :: rest, fd =>
    if k = fd.alias_ then
      (if old.fieldType = FieldType.undefined then (k, fd) :: rest else (k, old) :: rest)
    else (k, old) :: addEntry rest fd

/-- `TupleDescriptor.add_descriptor`.  Modelled from the spec: aliases stay
unique and insertion order is preserved; registering a descriptor under an
alias that already holds a still-`Pending` (UNDEFINED) placeholder replaces
the placeholder in place, while an already-resolved descriptor is kept (the
conflict rule required by the spec's order-independence property). -/
def Td.add (td : Td) (fd : Fd) : Td := ⟨addEntry td.entries fd⟩

/-- `TupleDescriptor.add_descriptor_list`. -/
def Td.addList (td : Td) (fds : List Fd) : Td := fds.foldl Td.add td

def setEntry : List (String × Fd) → String → Fd → List (String × Fd)
  | [], _, _ => []
  | (k, old) :: rest, a, fd =>
    if k = a then (k, fd) :: rest else (k, old) :: setEntry rest a fd

/-- In-place mutation of the descriptor stored under an alias (Python's
attribute assignment on the shared `FieldDescriptor` object), as a
position-preserving functional update. -/
def Td.update (td : Td) (a : String) (fd : Fd) : Td := ⟨setEntry td.entries a fd⟩

def Td.aliases (td : Td) : List String := td.entries.map Prod.fst

/-- `StatusSource` from `ssql/operators.py` (not under `src/`): the source
classification enum. -/
inductive StatusSource where
  | twitterFilter : StatusSource
  | twitterSample : StatusSource
deriving DecidableEq, Repr

/-- The operator tree built by the query builder.  Modelled from the spec:
`AllowAll`, `And`, `Or`, `Not`, `Contains`, `Equals` from `ssql/operators.py`
(not under `src/`), plus `groupBy` for the windowed-aggregation wrapper.
`token` and `null` record the two non-operator values `__parse_clauses` and
`__parse_operator` can also return (a bare token, and Python `None`). -/
inductive QTree where
  | allowAll : QTree
  | and : List QTree → QTree
  | or : List QTree → QTree
  | not : QTree → QTree
  | contains : String → TVal → QTree
  | equals : String → TVal → QTree
  | token : String → QTree
  | null : QTree
  | groupBy : QTree → Td → List Fd → List TVal → QTree

/-- The read-only collaborators a `QueryBuilder` instance holds.  The
registry lookup contract (`get_aggregate_factory`,
`FunctionRegistry.get_function`) and the built-in record schema
(`twitter_tuple_descriptor`) live outside `src/` and are modelled from the
spec: case-sensitive name lookups returning an opaque handle or nothing,
and a pre-populated descriptor table. -/
structure Ctx where
  aggReg : String → Option String
  funcReg : String → Option String
  builtin : Td

/-- `QueryBuilder.__remove_all` applied to the two parenthesis tokens, i.e.
`QueryBuilder.__clean_list`: destructively drop every parenthesis token from
a token list (modelled functionally). -/
def isParenTok (t : TVal) : Bool :=
  t == TVal.tok QueryTokens.LPAREN || t == TVal.tok QueryTokens.RPAREN

def cleanVals (l : List TVal) : List TVal := l.filter (fun t => !(isParenTok t))

/-- The explicit-alias test of `__parse_field` (and `__where_field`): the
list has at least three entries and its second-to-last is the `AS` token. -/
def aliasedForm (l : List TVal) : Bool :=
  decide (3 ≤ l.length ∧ l[l.length - 2]? = some (TVal.tok QueryTokens.AS))

/-- The synthetic alias `"operand%d"` minted for unaliased nested
expressions. -/
def mkOperand (n : Nat) : String := "operand" ++ toString n

def firstAlias : List Fd → String
  | [] => ""
  | fd :: _ => fd.alias_

/-- The argument loop of `__parse_field` (lines 227-235 of
`query_builder.py`): resolve every argument sub-expression with the
supplied parse function, mark the returned descriptors invisible, and
accumulate descriptors, first aliases and verification obligations in
source order. -/
def parseArgsGo (pf : List TVal → Nat → Except QErr (List Fd × List String × Nat)) :
    List TVal → Nat → Except QErr (List Fd × List String × List String × Nat)
  | [], c => .ok ([], [], [], c)
  | a :: rest, c =>
    match a with
    | .tok _ => .error .typeError
    | .lst l =>
      match pf l.toList c with
      | .error e => .error e
      | .ok (fds, ver, c') =>
        match parseArgsGo pf rest c' with
        | .error e => .error e
        | .ok (restFds, restU, restV, c'') =>
          .ok (fds.map (fun fd => { fd with visible := false }) ++ restFds,
               firstAlias fds :: restU, ver ++ restV, c'')

/-- The explicit-alias extraction of `__parse_field` (lines 200-202): when
the cleaned token group ends in `AS <alias>`, strip those two tokens and
return the alias. -/
def aliasStepOf (cleaned : List TVal) : Except QErr (Option String × List TVal) :=
  if aliasedForm cleaned then
    match cleaned.getLast? with
    | some (.tok a) => .ok (some a, cleaned.take (cleaned.length - 2))
    | _ => .error .typeError
  else .ok (none, cleaned)

/-- `QueryBuilder.__parse_field`, with explicit fuel for the recursion into
argument sub-expressions.  Returns the descriptor list (requested field
first), the alias names to verify later, and the updated synthetic-alias
counter. -/
def parseFieldF (ctx : Ctx) : Nat → Td → Bool → Bool → List TVal → Nat →
    Except QErr (List Fd × List String × Nat)
  | 0, _, _, _, _, _ => .error .fuelOut
  | fuel+1, td, aliasOnComplex, makeVisible, field, counter =>
    match aliasStepOf (cleanVals field) with
    | .error e => .error e
    | .ok (aliasO, body) =>
      match body with
      | [] => .error .emptyFieldClause
      | [x] =>
        match x with
        | .lst _ => .error .typeError
        | .tok t =>
          let a := aliasO.getD t
          match td.get t with
          | none =>
            .ok ([⟨a, [t], FieldType.undefined, none, none, makeVisible⟩], [t, a], counter)
          | some fd =>
            .ok ([⟨a, fd.underlyingFields, fd.fieldType, fd.aggregateFactory, fd.function,
                   makeVisible⟩], [], counter)
      | x :: args =>
        match x with
        | .lst _ => .error .typeError
        | .tok head =>
          let aliasRes : Except QErr (String × Nat) :=
            match aliasO with
            | some a => .ok (a, counter)
            | none =>
              if aliasOnComplex then .error .missingAlias
              else .ok (mkOperand (counter + 1), counter + 1)
          match aliasRes with
          | .error e => .error e
          | .ok (a, c1) =>
            match parseArgsGo (fun l c => parseFieldF ctx fuel td false false l c) args c1 with
            | .error e => .error e
            | .ok (pfds, unders, vers, c2) =>
              match ctx.aggReg head with
              | some ag =>
                .ok (⟨a, unders, FieldType.aggregate, some ag, none, makeVisible⟩ :: pfds,
                     vers, c2)
              | none =>
                match ctx.funcReg head with
                | some fn =>
                  .ok (⟨a, unders, FieldType.function_, none, some fn, makeVisible⟩ :: pfds,
                       vers, c2)
                | none => .error (.unknownCallable head)

/-- `__parse_field` at its canonical fuel (strictly more than the size of
the token group, which bounds the recursion depth). -/
def parseField (ctx : Ctx) (td : Td) (aliasOnComplex makeVisible : Bool)
    (field : List TVal) (counter : Nat) : Except QErr (List Fd × List String × Nat) :=
  parseFieldF ctx (sizeVals field + 1) td aliasOnComplex makeVisible field counter

/-- The mutable state a compilation threads through the where-clause pass:
the synthetic-alias counter and the accumulated (mutated) where-field token
lists. -/
structure BSt where
  counter : Nat
  whereFields : List (List TVal)
deriving DecidableEq, Repr

/-- `QueryBuilder.__where_field`: resolve the left operand of a comparison
against the built-in schema, and if the (cleaned) operand lacks an explicit
alias, append `AS <chosen alias>` to it; the resulting token list is
recorded in `where_fields` for the later select pass. -/
def whereField (ctx : Ctx) (fieldT : TVal) (st : BSt) : Except QErr (String × BSt) :=
  match fieldT with
  | .tok _ => .error .typeError
  | .lst f =>
    let field := f.toList
    match parseField ctx ctx.builtin false false field st.counter with
    | .error e => .error e
    | .ok (fds, _ver, c') =>
      let a := firstAlias fds
      let cleaned := cleanVals field
      let newField :=
        if aliasedForm cleaned then cleaned
        else cleaned ++ [TVal.tok QueryTokens.AS, TVal.tok a]
      .ok (a, ⟨c', st.whereFields ++ [newField]⟩)

/-- `QueryBuilder.__parse_operator`: dispatch a three-token comparison on
its middle token; any other shape falls off the end of the `if` chain and
returns Python `None` (`QTree.null`). -/
def parseOperator (ctx : Ctx) (clause : List TVal) (st : BSt) :
    Except QErr (QTree × BSt) :=
  match clause with
  | [lhs, .tok m, rhs] =>
    if m = QueryTokens.CONTAINS then
      match whereField ctx lhs st with
      | .error e => .error e
      | .ok (a, st') => .ok (.contains a rhs, st')
    else if m = QueryTokens.EQUALS then
      match whereField ctx lhs st with
      | .error e => .error e
      | .ok (a, st') => .ok (.equals a rhs, st')
    else if m = QueryTokens.EXCLAIM_EQUALS then
      match whereField ctx lhs st with
      | .error e => .error e
      | .ok (a, st') => .ok (.not (.equals a rhs), st')
    else .ok (.null, st)
  | _ => .ok (.null, st)

/-- `QueryBuilder.__and_or_single`: a one-element group stays bare, anything
else becomes a single `And` node. -/
def andOrSingle (ands : List QTree) : QTree :=
  match ands with
  | [a] => a
  | _ => .and ands

/-- The AND/OR scanning loop of `__parse_clauses` (lines 74-87): walk the
operands two tokens at a time, closing the current AND group onto the OR
list at an `OR` token or at the end of the sequence.  A connective that is
neither `AND` nor `OR` is skipped exactly like `AND` (the source's `elif`
has no else branch), and a trailing connective leaves the final group
unclosed. -/
def clausesLoop (pc : TVal → BSt → Except QErr (QTree × BSt)) :
    List TVal → List QTree → List QTree → BSt → Except QErr (List QTree × BSt)
  | [], _, ors, st => .ok (ors, st)
  | [x], ands, ors, st =>
    match pc x st with
    | .error e => .error e
    | .ok (p, st') => .ok (ors ++ [andOrSingle (ands ++ [p])], st')
  | x :: y :: rest, ands, ors, st =>
    match pc x st with
    | .error e => .error e
    | .ok (p, st') =>
      if y = TVal.tok QueryTokens.OR then
        clausesLoop pc rest [] (ors ++ [andOrSingle (ands ++ [p])]) st'
      else
        clausesLoop pc rest (ands ++ [p]) ors st'

/-- The final OR wrap-up of `__parse_clauses` (lines 90-93): a singleton OR
list is returned unwrapped, anything else is wrapped in one `Or` node. -/
def orWrap (ors : List QTree) : QTree :=
  match ors with
  | [o] => o
  | _ => .or ors

/-- `QueryBuilder.__parse_clauses`, with explicit fuel for the recursion
into nested sub-expressions.  A plain token is returned as-is (after the
clean step, which on a Python string only crashes when the string contains
a parenthesis character); a `WHERE_CONDITION`-tagged group goes to
`__parse_operator`; anything else is an AND/OR combination handled by
`clausesLoop`. -/
def parseClausesF (ctx : Ctx) : Nat → TVal → BSt → Except QErr (QTree × BSt)
  | 0, _, _ => .error .fuelOut
  | fuel+1, t, st =>
    match t with
    | .tok s =>
      if s.contains '(' || s.contains ')' then .error .pyError
      else .ok (.token s, st)
    | .lst f =>
      let cleaned := cleanVals f.toList
      match cleaned with
      | [] => .error .pyError
      | c0 :: restAll =>
        if c0 = TVal.tok QueryTokens.WHERE_CONDITION then
          parseOperator ctx restAll st
        else
          match clausesLoop (fun x s => parseClausesF ctx fuel x s) cleaned [] [] st with
          | .error e => .error e
          | .ok (ors, st') => .ok (orWrap ors, st')

/-- `__parse_clauses` at its canonical fuel. -/
def parseClauses (ctx : Ctx) (t : TVal) (st : BSt) : Except QErr (QTree × BSt) :=
  parseClausesF ctx (t.vsize + 1) t st

/-- `QueryBuilder.__parse_where`: an empty where clause (`['']`) yields
`AllowAll`; otherwise the first group, minus its leading keyword, goes to
`__parse_clauses`.  (On the degenerate shape where the first entry is a
plain string, Python slices the string instead; `__parse_clauses` then sees
a token.) -/
def parseWhere (ctx : Ctx) (whereClause : List TVal) (st : BSt) :
    Except QErr (QTree × BSt) :=
  if whereClause = [TVal.tok QueryTokens.EMPTY_STRING] then .ok (.allowAll, st)
  else
    match whereClause with
    | (.lst w) :: _ => parseClauses ctx (tnode (w.toList.drop 1)) st
    | (.tok s) :: _ => parseClauses ctx (.tok (s.drop 1)) st
    | [] => .error .pyError

/-- `QueryBuilder.__verify_and_fix_field`, with explicit fuel: `none` means
the recursion never returns (the source recurses with no cycle detection
beyond the direct self-reference test).  On success the resolved data is
copied into the placeholder in place, so the returned table carries the
memoized resolution. -/
def verifyFix : Nat → String → Td → Option (Except QErr (Fd × Td))
  | 0, _, _ => none
  | fuel+1, field, td =>
    match td.get field with
    | none => some (.error (.unresolvable field))
    | some fd =>
      if fd.fieldType = FieldType.undefined then
        match fd.underlyingFields with
        | [] => some (.error .pyError)
        | u :: _ =>
          if field = u then some (.error (.unresolvable field))
          else
            match verifyFix fuel u td with
            | none => none
            | some (.error e) => some (.error e)
            | some (.ok (rfd, td')) =>
              let newFd : Fd :=
                { fd with underlyingFields := rfd.underlyingFields,
                          fieldType := rfd.fieldType,
                          aggregateFactory := rfd.aggregateFactory,
                          function := rfd.function }
              some (.ok (newFd, td'.update field newFd))
      else some (.ok (fd, td))

/-- The verification loop of `__add_select_and_aggregate` (lines 142-143):
run `__verify_and_fix_field` over every collected obligation, threading the
mutated table. -/
def verifyAll (fuel : Nat) : List String → Td → Option (Except QErr Td)
  | [], td => some (.ok td)
  | f :: rest, td =>
    match verifyFix fuel f td with
    | none => none
    | some (.error e) => some (.error e)
    | some (.ok (_, td')) => verifyAll fuel rest td'

/-- The first pass of `__add_select_and_aggregate` (lines 138-141): parse
every field of select, where and group-by against the built-in schema,
accumulating descriptors and verification obligations. -/
def firstPass (ctx : Ctx) : List (List TVal) → Td → List String → Nat →
    Except QErr (Td × List String × Nat)
  | [], td, ver, c => .ok (td, ver, c)
  | f :: rest, td, ver, c =>
    match parseField ctx ctx.builtin true false f c with
    | .error e => .error e
    | .ok (fds, v, c') => firstPass ctx rest (td.addList fds) (ver ++ v) c'

/-- Lines 131-143 of `__add_select_and_aggregate` as one unit: first pass
plus verification, starting from an empty descriptor table. -/
def collectAndVerify (ctx : Ctx) (fields : List (List TVal)) (vfuel : Nat) (c : Nat) :
    Option (Except QErr (Td × Nat)) :=
  match firstPass ctx fields emptyTd [] c with
  | .error e => some (.error e)
  | .ok (td, vers, c') =>
    match verifyAll vfuel vers td with
    | none => none
    | some (.error e) => some (.error e)
    | some (.ok td') => some (.ok (td', c'))

/-- The select re-resolution loop (lines 152-156): build the visible select
descriptor against the fully-resolved table and record the fields that
resolved to aggregates, in order. -/
def secondPassSelect (ctx : Ctx) (td : Td) : List (List TVal) → Td → List Fd → Nat →
    Except QErr (Td × List Fd × Nat)
  | [], sd, aggs, c => .ok (sd, aggs, c)
  | f :: rest, sd, aggs, c =>
    match parseField ctx td true true f c with
    | .error e => .error e
    | .ok (fds, _, c') =>
      let aggs' :=
        match fds with
        | fd :: _ => if fd.fieldType = FieldType.aggregate then aggs ++ [fd] else aggs
        | [] => aggs
      secondPassSelect ctx td rest (sd.addList fds) aggs' c'

/-- The where re-resolution loop (lines 158-160): add every where-clause
field to the select descriptor as an invisible entry. -/
def secondPassWhere (ctx : Ctx) (td : Td) : List (List TVal) → Td → Nat →
    Except QErr (Td × Nat)
  | [], sd, c => .ok (sd, c)
  | f :: rest, sd, c =>
    match parseField ctx td true false f c with
    | .error e => .error e
    | .ok (fds, _, c') => secondPassWhere ctx td rest (sd.addList fds) c'

/-- The group-by resolution loop (lines 164-166): resolve every group-by
field visibly against the resolved table into the group descriptor. -/
def buildGroupD (ctx : Ctx) (td : Td) : List (List TVal) → Td → Nat →
    Except QErr (Td × Nat)
  | [], gd, c => .ok (gd, c)
  | f :: rest, gd, c =>
    match parseField ctx td true true f c with
    | .error e => .error e
    | .ok (fds, _, c') => buildGroupD ctx td rest (gd.addList fds) c'

def checkUngroupedGo (selectD groupD : Td) : List String → Except QErr Unit
  | [] => .ok ()
  | a :: rest =>
    match selectD.get a with
    | none => checkUngroupedGo selectD groupD rest
    | some fd =>
      if groupD.get a = none ∧ fd.fieldType ≠ FieldType.aggregate ∧ fd.visible = true then
        .error (.ungroupedSelectField a)
      else checkUngroupedGo selectD groupD rest

/-- The grouping validation loop (lines 167-173): for every alias of the
select descriptor, fail if it has no group-by entry, is not aggregate-typed,
and is visible. -/
def checkUngrouped (selectD groupD : Td) : Except QErr Unit :=
  checkUngroupedGo selectD groupD selectD.aliases

/-- Lines 161-176 of `__add_select_and_aggregate`: when aggregates were
found, require a window, build the group descriptor, run the grouping check
and wrap the predicate tree in a `GroupBy` node; finally attach the select
descriptor (the attachment is modelled by pairing it with the tree). -/
def finishTree (ctx : Ctx) (tree : QTree) (sd : Td) (aggs : List Fd)
    (groupFs : List (List TVal)) (window : Option (List TVal)) (td : Td) (c : Nat) :
    Except QErr (QTree × Td × Nat) :=
  match aggs with
  | [] => .ok (tree, sd, c)
  | _ :: _ =>
    match window with
    | none => .error .aggregateWithoutWindow
    | some w =>
      match buildGroupD ctx td groupFs emptyTd c with
      | .error e => .error e
      | .ok (gd, c') =>
        match checkUngrouped sd gd with
        | .error e => .error e
        | .ok _ => .ok (.groupBy tree gd aggs w, sd, c')

/-- `QueryBuilder.__add_select_and_aggregate` in full, over already-unwrapped
select / where / group-by field lists. -/
def addSelectAndAggregate (ctx : Ctx) (vfuel : Nat)
    (select whereFs groupFs : List (List TVal)) (window : Option (List TVal))
    (tree : QTree) (c : Nat) : Option (Except QErr (QTree × Td × Nat)) :=
  match collectAndVerify ctx (select ++ whereFs ++ groupFs) vfuel c with
  | none => none
  | some (.error e) => some (.error e)
  | some (.ok (td', c1)) =>
    match secondPassSelect ctx td' select emptyTd [] c1 with
    | .error e => some (.error e)
    | .ok (sd, aggs, c2) =>
      match secondPassWhere ctx td' whereFs sd c2 with
      | .error e => some (.error e)
      | .ok (sd', c3) => some (finishTree ctx tree sd' aggs groupFs window td' c3)

/-- `QueryBuilder.__get_source` (lines 37-44): classify the first declared
source token — exact match on the filter-stream name, prefix match on the
sample-stream name, otherwise an unknown-source error. -/
def getSource (sources : List String) : Except QErr StatusSource :=
  match sources with
  | [] => .error .pyError
  | s :: _ =>
    if s = QueryTokens.TWITTER then .ok .twitterFilter
    else if QueryTokens.TWITTER_SAMPLE.data.isPrefixOf s.data then .ok .twitterSample
    else .error (.unknownSource s)

/-- The token structure a parse produces, per the tokenizer input contract
(shape only; the grammar itself is out of scope). -/
structure ParsedQuery where
  sources : List String
  select : List TVal
  whereC : List TVal
  groupby : List TVal
  window : List TVal

def fieldsOf : List TVal → Except QErr (List (List TVal))
  | [] => .ok []
  | (.lst l) :: rest =>
    match fieldsOf rest with
    | .ok r => .ok (l.toList :: r)
    | .error e => .error e
  | (.tok _) :: _ => .error .typeError

/-- `QueryBuilder.__get_tree` (lines 45-53): unwrap the select list, the
where clause, the group-by list and the window, build the predicate tree,
then run `__add_select_and_aggregate`. -/
def getTreeP (ctx : Ctx) (vfuel : Nat) (p : ParsedQuery) (c0 : Nat) :
    Option (Except QErr (QTree × Td × Nat)) :=
  match p.select.drop 1 with
  | (.lst selRaw) :: _ =>
    match fieldsOf selRaw.toList with
    | .error e => some (.error e)
    | .ok selectFs =>
      let window : Option (List TVal) :=
        if p.window = [TVal.tok QueryTokens.EMPTY_STRING] then none
        else some (p.window.drop 1)
      let groupRes : Except QErr (List (List TVal)) :=
        if p.groupby = [TVal.tok QueryTokens.EMPTY_STRING] then .ok []
        else
          match p.groupby.drop 1 with
          | (.lst g) :: _ =>
            fieldsOf (g.toList.filter (fun t => decide (t ≠ TVal.tok QueryTokens.EMPTY_STRING)))
          | _ => .error .pyError
      match groupRes with
      | .error e => some (.error e)
      | .ok groupFs =>
        match parseWhere ctx p.whereC ⟨c0, []⟩ with
        | .error e => some (.error e)
        | .ok (tree, st) =>
          addSelectAndAggregate ctx vfuel selectFs st.whereFields groupFs window tree st.counter
  | _ => some (.error .pyError)

/-- `QueryBuilder.build` over an already-parsed token structure: source
classification first, then the tree; a source error aborts before any tree
is built. -/
def buildQ (ctx : Ctx) (vfuel : Nat) (p : ParsedQuery) :
    Option (Except QErr (StatusSource × QTree × Td)) :=
  match getSource p.sources with
  | .error e => some (.error e)
  | .ok src =>
    match getTreeP ctx vfuel p 0 with
    | none => none
    | some (.error e) => some (.error e)
    | some (.ok (t, sd, _)) => some (.ok (src, t, sd))

/-- A raw built-in field descriptor.  Modelled from the spec: the built-in
schema is pre-populated with native field aliases, each `Raw`-typed and
visible. -/
def rawFd (a : String) : Fd := ⟨a, [a], FieldType.raw, none, none, true⟩

/-- A small concrete built-in schema in the shape of
`twitter_tuple_descriptor`, for concrete evaluations. -/
def twitterTd : Td := ⟨[("text", rawFd "text"), ("lang", rawFd "lang")]⟩

/-- A concrete context with one aggregate (`count`) and one scalar function
(`lower`), for concrete evaluations. -/
def sampleCtx : Ctx :=
  { aggReg := fun s => if s = "count" then some "countAgg" else none,
    funcReg := fun s => if s = "lower" then some "lowerFn" else none,
    builtin := twitterTd }

/-- A context whose registries both know the name `foo`: the registry
lookup contract does not forbid a name that is registered as an aggregate
and as a scalar function at the same time.  Used to probe the dispatch
order of `__parse_field`. -/
def ctxBoth : Ctx :=
  { aggReg := fun s => if s = "foo" then some "aggH" else none,
    funcReg := fun s => if s = "foo" then some "fnH" else none,
    builtin := twitterTd }

/-- A descriptor table whose two `Pending` placeholders reference each
other: a reference cycle of length two. -/
def cycleTd : Td :=
  ⟨[("a", ⟨"a", ["b"], FieldType.undefined, none, none, false⟩),
    ("b", ⟨"b", ["a"], FieldType.undefined, none, none, false⟩)]⟩

/-- The alias at depth `i` of a linear reference chain; distinct depths
give distinct aliases. -/
def aliasN (i : Nat) : String := String.mk (List.replicate i 'c')

/-- The `Pending` placeholder at depth `i` of the linear chain: its single
underlying reference is the alias one step deeper. -/
def chainFd (i : Nat) : Fd := ⟨aliasN i, [aliasN (i+1)], FieldType.undefined, none, none, false⟩

/-- A linear alias chain of depth `n`: `n` pending links ending in a raw
field, all defined up front. -/
def chainTd (n : Nat) : Td :=
  ⟨(List.range n).map (fun i => (aliasN i, chainFd i)) ++ [(aliasN n, rawFd (aliasN n))]⟩

theorem TF.toList_ofList (l : List TVal) : (TF.ofList l).toList = l := by
  induction l with
  | nil => rfl
  | cons x r ih => cases x <;> simp [TF.ofList, TF.toList, ih]

theorem lparen_not_mem_clean (l : List TVal) :
    TVal.tok QueryTokens.LPAREN ∉ cleanVals l := by
  intro h
  have h2 := (List.mem_filter.mp h).2
  simp [isParenTok] at h2

theorem rparen_not_mem_clean (l : List TVal) :
    TVal.tok QueryTokens.RPAREN ∉ cleanVals l := by
  intro h
  have h2 := (List.mem_filter.mp h).2
  simp [isParenTok] at h2

/-- C8: source classification looks only at the first declared source token:
an exact match of the filter-stream name yields `FilterStream`, a token
beginning with the sample-stream name yields `SampleStream`, and any other
token makes the whole build fail with the unknown-source error before any
tree is produced. -/
theorem c8_source_classification (s : String) (rest : List String)
    (ctx : Ctx) (vfuel : Nat) (p : ParsedQuery) :
    (s = QueryTokens.TWITTER → getSource (s :: rest) = .ok .twitterFilter)
    ∧ (QueryTokens.TWITTER_SAMPLE.data.isPrefixOf s.data = true →
        getSource (s :: rest) = .ok .twitterSample)
    ∧ (s ≠ QueryTokens.TWITTER → QueryTokens.TWITTER_SAMPLE.data.isPrefixOf s.data = false →
        getSource (s :: rest) = .error (.unknownSource s))
    ∧ (s ≠ QueryTokens.TWITTER → QueryTokens.TWITTER_SAMPLE.data.isPrefixOf s.data = false →
        p.sources = s :: rest → buildQ ctx vfuel p = some (.error (.unknownSource s))) := by
  refine ⟨?_, ?_, ?_, ?_⟩
  · intro h
    simp [getSource, h]
  · intro h
    have hne : s ≠ QueryTokens.TWITTER := by
      intro he
      rw [he] at h
      exact absurd h (by decide)
    simp [getSource, hne, h]
  · intro hne h
    simp [getSource, hne, h]
  · intro hne h hsrc
    have hg : getSource p.sources = .error (.unknownSource s) := by
      rw [hsrc]; simp [getSource, hne, h]
    simp [buildQ, hg]

theorem c8_witness :
    ("bogus_source" ≠ QueryTokens.TWITTER)
    ∧ buildQ sampleCtx 1
        ⟨["bogus_source"], [], [TVal.tok ""], [TVal.tok ""], [TVal.tok ""]⟩
        = some (.error (.unknownSource "bogus_source")) :=
  ⟨by decide,
   (c8_source_classification "bogus_source" [] sampleCtx 1
      ⟨["bogus_source"], [], [TVal.tok ""], [TVal.tok ""], [TVal.tok ""]⟩).2.2.2
     (by decide) (by decide) rfl⟩

theorem checkUngroupedGo_ok_iff (selectD groupD : Td) (L : List String) :
    checkUngroupedGo selectD groupD L = .ok () ↔
      ∀ a ∈ L, ∀ fd, selectD.get a = some fd →
        groupD.get a = none → fd.fieldType ≠ FieldType.aggregate → fd.visible = false := by
  induction L with
  | nil => simp [checkUngroupedGo]
  | cons a rest ih =>
    simp only [checkUngroupedGo]
    cases hga : selectD.get a with
    | none =>
      rw [ih]
      constructor
      · intro h b hb fd hfd hg hagg
        rcases List.mem_cons.mp hb with rfl | hb
        · rw [hga] at hfd; cases hfd
        · exact h b hb fd hfd hg hagg
      · intro h b hb fd hfd hg hagg
        exact h b (List.mem_cons_of_mem a hb) fd hfd hg hagg
    | some fd =>
      dsimp only
      rcases Decidable.em (groupD.get a = none ∧ fd.fieldType ≠ FieldType.aggregate ∧
          fd.visible = true) with hc | hc
      · rw [if_pos hc]
        constructor
        · intro h; cases h
        · intro h
          have := h a (List.mem_cons_self a rest) fd hga hc.1 hc.2.1
          rw [hc.2.2] at this
          cases this
      · rw [if_neg hc, ih]
        constructor
        · intro h b hb fd' hfd' hg hagg
          rcases List.mem_cons.mp hb with rfl | hb
          · rw [hga] at hfd'
            injection hfd' with he
            subst he
            by_contra hv
            exact hc ⟨hg, hagg, by revert hv; cases fd.visible <;> simp⟩
          · exact h b hb fd' hfd' hg hagg
        · intro h b hb fd' hfd' hg hagg
          exact h b (List.mem_cons_of_mem a hb) fd' hfd' hg hagg

theorem checkUngroupedGo_error (selectD groupD : Td) (L : List String) (e : QErr)
    (h : checkUngroupedGo selectD groupD L = .error e) :
    ∃ a fd, e = .ungroupedSelectField a ∧ a ∈ L ∧ selectD.get a = some fd ∧
      groupD.get a = none ∧ fd.fieldType ≠ FieldType.aggregate ∧ fd.visible = true := by
  induction L with
  | nil => simp [checkUngroupedGo] at h
  | cons a rest ih =>
    simp only [checkUngroupedGo] at h
    cases hga : selectD.get a with
    | none =>
      rw [hga] at h
      obtain ⟨b, fd, he, hb, rest'⟩ := ih h
      exact ⟨b, fd, he, List.mem_cons_of_mem a hb, rest'⟩
    | some fd =>
      rw [hga] at h
      dsimp only at h
      rcases Decidable.em (groupD.get a = none ∧ fd.fieldType ≠ FieldType.aggregate ∧
          fd.visible = true) with hc | hc
      · rw [if_pos hc] at h
        injection h with he
        exact ⟨a, fd, he.symm, List.mem_cons_self a rest, hga, hc.1, hc.2.1, hc.2.2⟩
      · rw [if_neg hc] at h
        obtain ⟨b, fd', he, hb, rest'⟩ := ih h
        exact ⟨b, fd', he, List.mem_cons_of_mem a hb, rest'⟩

/-- C5: with aggregates present, the grouping check passes exactly when
every alias of the select (output) descriptor that lacks a group-by entry
and is not aggregate-typed is invisible; and when it fails, the error is
`UngroupedSelectField` for an alias that has no group-by entry, is not
aggregate-typed, and is visible. -/
theorem c5_ungrouped_select_check (selectD groupD : Td) :
    (checkUngrouped selectD groupD = .ok () ↔
      ∀ a ∈ selectD.aliases, ∀ fd, selectD.get a = some fd →
        groupD.get a = none → fd.fieldType ≠ FieldType.aggregate → fd.visible = false)
    ∧ (∀ e, checkUngrouped selectD groupD = .error e →
        ∃ a fd, e = .ungroupedSelectField a ∧ a ∈ selectD.aliases ∧
          selectD.get a = some fd ∧ groupD.get a = none ∧
          fd.fieldType ≠ FieldType.aggregate ∧ fd.visible = true) :=
  ⟨checkUngroupedGo_ok_iff selectD groupD selectD.aliases,
   fun e h => checkUngroupedGo_error selectD groupD selectD.aliases e h⟩

theorem c5_witness :
    ∃ a fd, QErr.ungroupedSelectField "a" = .ungroupedSelectField a
      ∧ a ∈ (Td.mk [("a", rawFd "a")]).aliases
      ∧ (Td.mk [("a", rawFd "a")]).get a = some fd
      ∧ emptyTd.get a = none
      ∧ fd.fieldType ≠ FieldType.aggregate ∧ fd.visible = true :=
  (c5_ungrouped_select_check (Td.mk [("a", rawFd "a")]) emptyTd).2
    (QErr.ungroupedSelectField "a") rfl

/-- C10: compilation transforms the token structure it was given: the clean
step removes every parenthesis token from a processed token list (so a list
containing one is changed), and `__where_field` appends the alias marker
and the resolver-chosen alias to a where-clause operand that lacks an
explicit alias, so the operand's token list after processing differs from
the one passed in. -/
theorem c10_mutation (ctx : Ctx) (f : TF) (st st' : BSt) (a : String) (l : List TVal) :
    (TVal.tok QueryTokens.LPAREN ∉ cleanVals l ∧ TVal.tok QueryTokens.RPAREN ∉ cleanVals l)
    ∧ (TVal.tok QueryTokens.LPAREN ∈ l ∨ TVal.tok QueryTokens.RPAREN ∈ l → cleanVals l ≠ l)
    ∧ (whereField ctx (.lst f) st = .ok (a, st') →
        aliasedForm (cleanVals f.toList) = false →
        st'.whereFields = st.whereFields
          ++ [cleanVals f.toList ++ [TVal.tok QueryTokens.AS, TVal.tok a]])
    ∧ (whereField ctx (.lst f) st = .ok (a, st') →
        aliasedForm (cleanVals f.toList) = false →
        cleanVals f.toList = f.toList →
        st'.whereFields = st.whereFields
            ++ [f.toList ++ [TVal.tok QueryTokens.AS, TVal.tok a]]
          ∧ f.toList ++ [TVal.tok QueryTokens.AS, TVal.tok a] ≠ f.toList) := by
  have happend : whereField ctx (.lst f) st = .ok (a, st') →
      aliasedForm (cleanVals f.toList) = false →
      st'.whereFields = st.whereFields
        ++ [cleanVals f.toList ++ [TVal.tok QueryTokens.AS, TVal.tok a]] := by
    intro h hform
    simp only [whereField] at h
    cases hp : parseField ctx ctx.builtin false false f.toList st.counter with
    | error e => rw [hp] at h; cases h
    | ok r =>
      obtain ⟨fds, ver, c'⟩ := r
      rw [hp] at h
      dsimp only at h
      rw [hform] at h
      simp only [Bool.false_eq_true, if_false] at h
      injection h with h1
      injection h1 with ha hst
      subst ha
      subst hst
      rfl
  refine ⟨⟨lparen_not_mem_clean l, rparen_not_mem_clean l⟩, ?_, happend, ?_⟩
  · intro hmem heq
    rcases hmem with hmem | hmem
    · exact lparen_not_mem_clean l (by rw [heq]; exact hmem)
    · exact rparen_not_mem_clean l (by rw [heq]; exact hmem)
  · intro h hform hclean
    refine ⟨by rw [happend h hform, hclean], ?_⟩
    intro he
    have := congrArg List.length he
    simp at this

theorem c10_witness :
    BSt.whereFields ⟨0, [[TVal.tok "text", TVal.tok "AS", TVal.tok "text"]]⟩
        = BSt.whereFields ⟨0, []⟩
          ++ [[TVal.tok "text"] ++ [TVal.tok QueryTokens.AS, TVal.tok "text"]]
      ∧ [TVal.tok "text"] ++ [TVal.tok QueryTokens.AS, TVal.tok "text"] ≠ [TVal.tok "text"] :=
  (c10_mutation sampleCtx (TF.ofList [TVal.tok "text"]) ⟨0, []⟩
      ⟨0, [[TVal.tok "text", TVal.tok "AS", TVal.tok "text"]]⟩ "text" []).2.2.2
    rfl rfl rfl

theorem isParenTok_lst (f : TF) : isParenTok (.lst f) = false := by
  simp [isParenTok]

theorem isParenTok_tok (s : String) (h1 : s ≠ QueryTokens.LPAREN)
    (h2 : s ≠ QueryTokens.RPAREN) : isParenTok (.tok s) = false := by
  simp [isParenTok, h1, h2]

theorem cleanVals_nil : cleanVals [] = [] := rfl

theorem cleanVals_cons_lst (f : TF) (r : List TVal) :
    cleanVals (.lst f :: r) = .lst f :: cleanVals r := by
  simp [cleanVals, List.filter_cons, isParenTok_lst]

theorem cleanVals_cons_tok (s : String) (r : List TVal) (h1 : s ≠ QueryTokens.LPAREN)
    (h2 : s ≠ QueryTokens.RPAREN) : cleanVals (.tok s :: r) = .tok s :: cleanVals r := by
  simp [cleanVals, List.filter_cons, isParenTok_tok s h1 h2]

theorem clausesLoop_last (pc : TVal → BSt → Except QErr (QTree × BSt)) (x : TVal)
    (ands ors : List QTree) (st st' : BSt) (p : QTree) (hx : pc x st = .ok (p, st')) :
    clausesLoop pc [x] ands ors st = .ok (ors ++ [andOrSingle (ands ++ [p])], st') := by
  simp [clausesLoop, hx]

theorem clausesLoop_and (pc : TVal → BSt → Except QErr (QTree × BSt)) (x y : TVal)
    (rest : List TVal) (ands ors : List QTree) (st st' : BSt) (p : QTree)
    (hx : pc x st = .ok (p, st')) (hy : y ≠ TVal.tok QueryTokens.OR) :
    clausesLoop pc (x :: y :: rest) ands ors st
      = clausesLoop pc rest (ands ++ [p]) ors st' := by
  simp [clausesLoop, hx, hy]

theorem clausesLoop_or (pc : TVal → BSt → Except QErr (QTree × BSt)) (x : TVal)
    (rest : List TVal) (ands ors : List QTree) (st st' : BSt) (p : QTree)
    (hx : pc x st = .ok (p, st')) :
    clausesLoop pc (x :: TVal.tok QueryTokens.OR :: rest) ands ors st
      = clausesLoop pc rest [] (ors ++ [andOrSingle (ands ++ [p])]) st' := by
  simp [clausesLoop, hx]

theorem parseClausesF_node (ctx : Ctx) (fuel : Nat) (l : List TVal) (st : BSt)
    (c0 : TVal) (restAll : List TVal) (hc : cleanVals l = c0 :: restAll)
    (hne : c0 ≠ TVal.tok QueryTokens.WHERE_CONDITION) :
    parseClausesF ctx (fuel+1) (tnode l) st
      = match clausesLoop (fun x s => parseClausesF ctx fuel x s) (c0 :: restAll) [] [] st with
        | .error e => .error e
        | .ok (ors, st') => .ok (orWrap ors, st') := by
  simp [parseClausesF, tnode, TF.toList_ofList, hc, hne]

theorem parseClausesF_wc (ctx : Ctx) (fuel : Nat) (l : List TVal) (st : BSt)
    (body : List TVal)
    (hc : cleanVals l = TVal.tok QueryTokens.WHERE_CONDITION :: body) :
    parseClausesF ctx (fuel+1) (tnode l) st = parseOperator ctx body st := by
  simp [parseClausesF, tnode, TF.toList_ofList, hc]

/-- C9: a comparison group whose body is not exactly three tokens with a
recognized middle operator (`contains`, `==`, `!=`) makes `__parse_operator`
return Python `None` without raising, and that `None` is inserted as a
child of the enclosing And/Or group. -/
theorem c9_unrecognized_comparison (ctx : Ctx) (clause : List TVal) (st : BSt)
    (hbad : ∀ l m r, clause = [l, TVal.tok m, r] →
      m ≠ QueryTokens.CONTAINS ∧ m ≠ QueryTokens.EQUALS ∧ m ≠ QueryTokens.EXCLAIM_EQUALS) :
    parseOperator ctx clause st = .ok (.null, st)
    ∧ (∀ fuel g pY st', cleanVals clause = clause →
        parseClausesF ctx (fuel+1) (.lst g) st = .ok (pY, st') →
        parseClausesF ctx (fuel+1+1)
          (tnode [tnode (TVal.tok QueryTokens.WHERE_CONDITION :: clause),
                  TVal.tok QueryTokens.AND, TVal.lst g]) st
          = .ok (.and [.null, pY], st')) := by
  have p1 : parseOperator ctx clause st = .ok (.null, st) := by
    match clause with
    | [] => rfl
    | [x] => rfl
    | [x, y] => cases y <;> rfl
    | [x, .lst g, z] => rfl
    | [x, .tok m, z] =>
      obtain ⟨h1, h2, h3⟩ := hbad x m z rfl
      simp [parseOperator, h1, h2, h3]
    | x :: y :: z :: w :: rest => cases y <;> rfl
  refine ⟨p1, ?_⟩
  intro fuel g pY st' hclean hY
  have hXclean : cleanVals (TVal.tok QueryTokens.WHERE_CONDITION :: clause)
      = TVal.tok QueryTokens.WHERE_CONDITION :: clause := by
    rw [cleanVals_cons_tok _ _ (by decide) (by decide), hclean]
  have hX : parseClausesF ctx (fuel+1)
      (tnode (TVal.tok QueryTokens.WHERE_CONDITION :: clause)) st = .ok (.null, st) := by
    rw [parseClausesF_wc ctx fuel _ st clause hXclean, p1]
  have houter : cleanVals [tnode (TVal.tok QueryTokens.WHERE_CONDITION :: clause),
      TVal.tok QueryTokens.AND, TVal.lst g]
      = [tnode (TVal.tok QueryTokens.WHERE_CONDITION :: clause),
         TVal.tok QueryTokens.AND, TVal.lst g] := by
    rw [show tnode (TVal.tok QueryTokens.WHERE_CONDITION :: clause)
        = TVal.lst (TF.ofList (TVal.tok QueryTokens.WHERE_CONDITION :: clause)) from rfl]
    rw [cleanVals_cons_lst, cleanVals_cons_tok _ _ (by decide) (by decide),
      cleanVals_cons_lst, cleanVals_nil]
  rw [parseClausesF_node ctx (fuel+1) _ st _ _ houter (by simp [tnode])]
  rw [clausesLoop_and _ _ _ _ _ _ _ _ _ hX (by decide)]
  rw [clausesLoop_last _ _ _ _ _ _ _ hY]
  simp [andOrSingle, orWrap]

theorem c9_witness :
    parseClausesF sampleCtx 2
      (tnode [tnode (TVal.tok QueryTokens.WHERE_CONDITION
                :: [tnode [TVal.tok "text"], TVal.tok "<", TVal.tok "'x'"]),
              TVal.tok QueryTokens.AND,
              TVal.lst (TF.ofList [TVal.tok "WHERE_CONDITION",
                tnode [TVal.tok "text"], TVal.tok "contains", TVal.tok "'a'"])]) ⟨0, []⟩
      = .ok (.and [.null, .contains "text" (TVal.tok "'a'")],
             ⟨0, [[TVal.tok "text", TVal.tok "AS", TVal.tok "text"]]⟩) :=
  (c9_unrecognized_comparison sampleCtx
      [tnode [TVal.tok "text"], TVal.tok "<", TVal.tok "'x'"] ⟨0, []⟩
      (by
        intro l m r h
        injection h with ha h2
        injection h2 with h3 h4
        injection h3 with hm
        subst hm
        exact ⟨by decide, by decide, by decide⟩)).2
    0
    (TF.ofList [TVal.tok "WHERE_CONDITION", tnode [TVal.tok "text"],
      TVal.tok "contains", TVal.tok "'a'"])
    (.contains "text" (TVal.tok "'a'"))
    ⟨0, [[TVal.tok "text", TVal.tok "AS", TVal.tok "text"]]⟩
    rfl rfl

/-- C1: four comparison operands joined `A and B or C and D` build the tree
`Or([And([A,B]), And([C,D])])`: consecutive AND-joined operands collect into
one flat multi-child `And`, each group closed at an OR token or at the end
of the sequence is appended to the OR list, a lone operand stays bare
(`andOrSingle [t] = t`), and a singleton OR list is returned unwrapped
(`orWrap [t] = t`). -/
theorem c1_and_or_precedence (ctx : Ctx) (fuel : Nat) (gA gB gC gD : TF)
    (st0 st1 st2 st3 st4 : BSt) (pA pB pC pD : QTree)
    (h1 : parseClausesF ctx (fuel+1) (.lst gA) st0 = .ok (pA, st1))
    (h2 : parseClausesF ctx (fuel+1) (.lst gB) st1 = .ok (pB, st2))
    (h3 : parseClausesF ctx (fuel+1) (.lst gC) st2 = .ok (pC, st3))
    (h4 : parseClausesF ctx (fuel+1) (.lst gD) st3 = .ok (pD, st4)) :
    parseClausesF ctx (fuel+1+1)
      (tnode [TVal.lst gA, TVal.tok QueryTokens.AND, TVal.lst gB,
              TVal.tok QueryTokens.OR, TVal.lst gC, TVal.tok QueryTokens.AND, TVal.lst gD])
      st0
      = .ok (.or [.and [pA, pB], .and [pC, pD]], st4)
    ∧ (∀ t : QTree, andOrSingle [t] = t ∧ orWrap [t] = t) := by
  constructor
  · have houter : cleanVals [TVal.lst gA, TVal.tok QueryTokens.AND, TVal.lst gB,
        TVal.tok QueryTokens.OR, TVal.lst gC, TVal.tok QueryTokens.AND, TVal.lst gD]
        = [TVal.lst gA, TVal.tok QueryTokens.AND, TVal.lst gB,
           TVal.tok QueryTokens.OR, TVal.lst gC, TVal.tok QueryTokens.AND, TVal.lst gD] := by
      rw [cleanVals_cons_lst, cleanVals_cons_tok _ _ (by decide) (by decide),
        cleanVals_cons_lst, cleanVals_cons_tok _ _ (by decide) (by decide),
        cleanVals_cons_lst, cleanVals_cons_tok _ _ (by decide) (by decide),
        cleanVals_cons_lst, cleanVals_nil]
    rw [parseClausesF_node ctx (fuel+1) _ st0 _ _ houter (by simp)]
    rw [clausesLoop_and _ _ _ _ _ _ _ _ _ h1 (by decide)]
    rw [clausesLoop_or _ _ _ _ _ _ _ _ h2]
    rw [clausesLoop_and _ _ _ _ _ _ _ _ _ h3 (by decide)]
    rw [clausesLoop_last _ _ _ _ _ _ _ h4]
    simp [andOrSingle, orWrap]
  · intro t
    exact ⟨rfl, rfl⟩

theorem c1_witness :
    parseClausesF sampleCtx 2
      (tnode [TVal.lst (TF.ofList [TVal.tok "WHERE_CONDITION", tnode [TVal.tok "text"],
                TVal.tok "contains", TVal.tok "'a'"]),
              TVal.tok QueryTokens.AND,
              TVal.lst (TF.ofList [TVal.tok "WHERE_CONDITION", tnode [TVal.tok "lang"],
                TVal.tok "==", TVal.tok "'en'"]),
              TVal.tok QueryTokens.OR,
              TVal.lst (TF.ofList [TVal.tok "WHERE_CONDITION", tnode [TVal.tok "text"],
                TVal.tok "==", TVal.tok "'b'"]),
              TVal.tok QueryTokens.AND,
              TVal.lst (TF.ofList [TVal.tok "WHERE_CONDITION", tnode [TVal.tok "lang"],
                TVal.tok "!=", TVal.tok "'fr'"])]) ⟨0, []⟩
      = .ok (.or [.and [.contains "text" (TVal.tok "'a'"), .equals "lang" (TVal.tok "'en'")],
                  .and [.equals "text" (TVal.tok "'b'"),
                        .not (.equals "lang" (TVal.tok "'fr'"))]],
             ⟨0, [[TVal.tok "text", TVal.tok "AS", TVal.tok "text"],
                  [TVal.tok "lang", TVal.tok "AS", TVal.tok "lang"],
                  [TVal.tok "text", TVal.tok "AS", TVal.tok "text"],
                  [TVal.tok "lang", TVal.tok "AS", TVal.tok "lang"]]⟩) :=
  (c1_and_or_precedence sampleCtx 0
    (TF.ofList [TVal.tok "WHERE_CONDITION", tnode [TVal.tok "text"],
      TVal.tok "contains", TVal.tok "'a'"])
    (TF.ofList [TVal.tok "WHERE_CONDITION", tnode [TVal.tok "lang"],
      TVal.tok "==", TVal.tok "'en'"])
    (TF.ofList [TVal.tok "WHERE_CONDITION", tnode [TVal.tok "text"],
      TVal.tok "==", TVal.tok "'b'"])
    (TF.ofList [TVal.tok "WHERE_CONDITION", tnode [TVal.tok "lang"],
      TVal.tok "!=", TVal.tok "'fr'"])
    ⟨0, []⟩
    ⟨0, [[TVal.tok "text", TVal.tok "AS", TVal.tok "text"]]⟩
    ⟨0, [[TVal.tok "text", TVal.tok "AS", TVal.tok "text"],
         [TVal.tok "lang", TVal.tok "AS", TVal.tok "lang"]]⟩
    ⟨0, [[TVal.tok "text", TVal.tok "AS", TVal.tok "text"],
         [TVal.tok "lang", TVal.tok "AS", TVal.tok "lang"],
         [TVal.tok "text", TVal.tok "AS", TVal.tok "text"]]⟩
    ⟨0, [[TVal.tok "text", TVal.tok "AS", TVal.tok "text"],
         [TVal.tok "lang", TVal.tok "AS", TVal.tok "lang"],
         [TVal.tok "text", TVal.tok "AS", TVal.tok "text"],
         [TVal.tok "lang", TVal.tok "AS", TVal.tok "lang"]]⟩
    (.contains "text" (TVal.tok "'a'"))
    (.equals "lang" (TVal.tok "'en'"))
    (.equals "text" (TVal.tok "'b'"))
    (.not (.equals "lang" (TVal.tok "'fr'")))
    rfl rfl rfl rfl).1

theorem setEntry_keys (l : List (String × Fd)) (a : String) (fd : Fd) :
    (setEntry l a fd).map Prod.fst = l.map Prod.fst := by
  induction l with
  | nil => rfl
  | cons x rest ih =>
    obtain ⟨k, old⟩ := x
    simp only [setEntry]
    by_cases h : k = a
    · rw [if_pos h]
      simp
    · rw [if_neg h]
      simp [ih]

theorem lookupFd_isSome_iff (l : List (String × Fd)) (a : String) :
    (lookupFd l a).isSome ↔ a ∈ l.map Prod.fst := by
  induction l with
  | nil => simp [lookupFd]
  | cons x rest ih =>
    obtain ⟨k, fd⟩ := x
    simp only [lookupFd]
    by_cases h : k = a
    · subst h
      simp
    · rw [if_neg h]
      have h' : a ≠ k := fun he => h he.symm
      simp [ih, h']

theorem lookupFd_setEntry_self (l : List (String × Fd)) (a : String) (fd : Fd)
    (h : (lookupFd l a).isSome) : lookupFd (setEntry l a fd) a = some fd := by
  induction l with
  | nil => simp [lookupFd] at h
  | cons x rest ih =>
    obtain ⟨k, old⟩ := x
    by_cases hk : k = a
    · simp only [setEntry, lookupFd]
      rw [if_pos hk, lookupFd, if_pos hk]
    · simp only [setEntry, lookupFd]
      rw [if_neg hk, lookupFd, if_neg hk]
      simp only [lookupFd, if_neg hk] at h
      exact ih h

theorem verifyFix_keys (n : Nat) : ∀ (a : String) (td : Td) (fd : Fd) (td' : Td),
    verifyFix n a td = some (.ok (fd, td')) →
    td'.entries.map Prod.fst = td.entries.map Prod.fst := by
  induction n with
  | zero =>
    intro a td fd td' h
    simp [verifyFix] at h
  | succ n ih =>
    intro a td fd td' h
    simp only [verifyFix] at h
    cases hg : td.get a with
    | none =>
      rw [hg] at h
      simp at h
    | some fd0 =>
      rw [hg] at h
      dsimp only at h
      by_cases hu : fd0.fieldType = FieldType.undefined
      · rw [if_pos hu] at h
        cases hul : fd0.underlyingFields with
        | nil =>
          rw [hul] at h
          simp at h
        | cons u rest =>
          rw [hul] at h
          dsimp only at h
          by_cases hself : a = u
          · rw [if_pos hself] at h
            simp at h
          · rw [if_neg hself] at h
            cases hrec : verifyFix n u td with
            | none =>
              rw [hrec] at h
              simp at h
            | some r =>
              rw [hrec] at h
              cases r with
              | error e => simp at h
              | ok p =>
                obtain ⟨rfd, tdr⟩ := p
                dsimp only at h
                simp only [Option.some.injEq, Except.ok.injEq, Prod.mk.injEq] at h
                obtain ⟨hfd, htd⟩ := h
                rw [hfd] at htd
                rw [← htd]
                exact (setEntry_keys tdr.entries a fd).trans (ih u td rfd tdr hrec)
      · rw [if_neg hu] at h
        simp only [Option.some.injEq, Except.ok.injEq, Prod.mk.injEq] at h
        rw [← h.2]

theorem verifyFix_resolved (n : Nat) : ∀ (a : String) (td : Td) (fd : Fd) (td' : Td),
    verifyFix n a td = some (.ok (fd, td')) →
    fd.fieldType ≠ FieldType.undefined ∧ td'.get a = some fd := by
  induction n with
  | zero =>
    intro a td fd td' h
    simp [verifyFix] at h
  | succ n ih =>
    intro a td fd td' h
    simp only [verifyFix] at h
    cases hg : td.get a with
    | none =>
      rw [hg] at h
      simp at h
    | some fd0 =>
      rw [hg] at h
      dsimp only at h
      by_cases hu : fd0.fieldType = FieldType.undefined
      · rw [if_pos hu] at h
        cases hul : fd0.underlyingFields with
        | nil =>
          rw [hul] at h
          simp at h
        | cons u rest =>
          rw [hul] at h
          dsimp only at h
          by_cases hself : a = u
          · rw [if_pos hself] at h
            simp at h
          · rw [if_neg hself] at h
            cases hrec : verifyFix n u td with
            | none =>
              rw [hrec] at h
              simp at h
            | some r =>
              rw [hrec] at h
              cases r with
              | error e => simp at h
              | ok p =>
                obtain ⟨rfd, tdr⟩ := p
                dsimp only at h
                simp only [Option.some.injEq, Except.ok.injEq, Prod.mk.injEq] at h
                obtain ⟨hfd, htd⟩ := h
                have hres := ih u td rfd tdr hrec
                rw [hfd] at htd
                constructor
                · rw [← hfd]
                  exact hres.1
                · rw [← htd]
                  have hsome : (lookupFd tdr.entries a).isSome := by
                    rw [lookupFd_isSome_iff, verifyFix_keys n u td rfd tdr hrec]
                    rw [← lookupFd_isSome_iff]
                    rw [show lookupFd td.entries a = td.get a from rfl, hg]
                    rfl
                  exact lookupFd_setEntry_self tdr.entries a fd hsome
      · rw [if_neg hu] at h
        simp only [Option.some.injEq, Except.ok.injEq, Prod.mk.injEq] at h
        obtain ⟨hfd, htd⟩ := h
        constructor
        · rw [← hfd]
          exact hu
        · rw [← htd, ← hfd]
          exact hg

/-- C7: once `__verify_and_fix_field` has resolved an alias, the resolution
is memoized in the table: resolving the same alias again returns the very
same descriptor data (field type, underlying fields, aggregate, function)
and leaves the table unchanged, for any fuel. -/
theorem c7_verify_idempotent (n m : Nat) (a : String) (td td' : Td) (fd : Fd)
    (h : verifyFix (n+1) a td = some (.ok (fd, td'))) :
    verifyFix (m+1) a td' = some (.ok (fd, td')) := by
  obtain ⟨hft, hget⟩ := verifyFix_resolved (n+1) a td fd td' h
  simp only [verifyFix]
  rw [hget]
  dsimp only
  rw [if_neg hft]

theorem c7_witness :
    verifyFix 1 "t"
      (Td.mk [("t", ⟨"t", ["text"], FieldType.raw, none, none, false⟩),
              ("text", rawFd "text")])
      = some (.ok (⟨"t", ["text"], FieldType.raw, none, none, false⟩,
          Td.mk [("t", ⟨"t", ["text"], FieldType.raw, none, none, false⟩),
                 ("text", rawFd "text")])) :=
  c7_verify_idempotent 1 0 "t"
    (Td.mk [("t", ⟨"t", ["text"], FieldType.undefined, none, none, false⟩),
            ("text", rawFd "text")])
    (Td.mk [("t", ⟨"t", ["text"], FieldType.raw, none, none, false⟩),
            ("text", rawFd "text")])
    ⟨"t", ["text"], FieldType.raw, none, none, false⟩
    rfl

theorem cycle_diverges (n : Nat) :
    verifyFix n "a" cycleTd = none ∧ verifyFix n "b" cycleTd = none := by
  induction n with
  | zero => exact ⟨rfl, rfl⟩
  | succ n ih =>
    refine ⟨?_, ?_⟩
    · simp only [verifyFix]
      rw [show cycleTd.get "a"
          = some ⟨"a", ["b"], FieldType.undefined, none, none, false⟩ from rfl]
      dsimp only
      rw [if_pos rfl]
      rw [if_neg (by decide)]
      rw [ih.2]
    · simp only [verifyFix]
      rw [show cycleTd.get "b"
          = some ⟨"b", ["a"], FieldType.undefined, none, none, false⟩ from rfl]
      dsimp only
      rw [if_pos rfl]
      rw [if_neg (by decide)]
      rw [ih.1]

/-- C2 counterexample: on the two-element reference cycle `cycleTd`
(`a` pending on `b`, `b` pending on `a`) the reference verifier never
returns a result — no fuel suffices — so the claimed termination on cyclic
pending chains is false. -/
theorem c2_counterexample : ¬ ∃ n r, verifyFix n "a" cycleTd = some r := by
  rintro ⟨n, r, h⟩
  rw [(cycle_diverges n).1] at h
  cases h

theorem aliasN_inj (i j : Nat) (h : aliasN i = aliasN j) : i = j := by
  have h2 : List.replicate i 'c' = List.replicate j 'c' := congrArg String.data h
  have h3 := congrArg List.length h2
  simpa using h3

theorem lookupFd_append (l1 l2 : List (String × Fd)) (a : String) :
    lookupFd (l1 ++ l2) a
      = match lookupFd l1 a with
        | some fd => some fd
        | none => lookupFd l2 a := by
  induction l1 with
  | nil => rfl
  | cons x rest ih =>
    obtain ⟨k, fd⟩ := x
    by_cases h : k = a
    · simp [lookupFd, h]
    · simp [lookupFd, h, ih]

theorem lookup_chain_ge (m j : Nat) (h : m ≤ j) :
    lookupFd ((List.range m).map (fun i => (aliasN i, chainFd i))) (aliasN j) = none := by
  induction m with
  | zero => rfl
  | succ m ih =>
    rw [List.range_succ, List.map_append, lookupFd_append]
    rw [ih (Nat.le_of_succ_le h)]
    simp only [List.map_cons, List.map_nil, lookupFd]
    rw [if_neg (fun he => by have := aliasN_inj m j he; omega)]

theorem lookup_chain_lt (m : Nat) : ∀ j, j < m →
    lookupFd ((List.range m).map (fun i => (aliasN i, chainFd i))) (aliasN j)
      = some (chainFd j) := by
  induction m with
  | zero => omega
  | succ m ih =>
    intro j hj
    rw [List.range_succ, List.map_append, lookupFd_append]
    by_cases hjm : j < m
    · rw [ih j hjm]
    · have hje : j = m := by omega
      subst hje
      rw [lookup_chain_ge j j le_rfl]
      simp [lookupFd]

theorem chainTd_get_lt (n j : Nat) (h : j < n) :
    (chainTd n).get (aliasN j) = some (chainFd j) := by
  show lookupFd _ _ = _
  rw [show (chainTd n).entries
      = (List.range n).map (fun i => (aliasN i, chainFd i)) ++ [(aliasN n, rawFd (aliasN n))]
      from rfl]
  rw [lookupFd_append, lookup_chain_lt n j h]

theorem chainTd_get_last (n : Nat) :
    (chainTd n).get (aliasN n) = some (rawFd (aliasN n)) := by
  show lookupFd _ _ = _
  rw [show (chainTd n).entries
      = (List.range n).map (fun i => (aliasN i, chainFd i)) ++ [(aliasN n, rawFd (aliasN n))]
      from rfl]
  rw [lookupFd_append, lookup_chain_ge n n le_rfl]
  simp [lookupFd]

theorem chain_resolves (k : Nat) : ∀ (i n : Nat) (td : Td), i + k = n →
    (∀ j, i ≤ j → j < n → td.get (aliasN j) = some (chainFd j)) →
    td.get (aliasN n) = some (rawFd (aliasN n)) →
    ∃ fd td', verifyFix (k+1) (aliasN i) td = some (.ok (fd, td'))
      ∧ fd.fieldType = FieldType.raw := by
  induction k with
  | zero =>
    intro i n td hik hmid hlast
    have hin : i = n := by omega
    subst hin
    refine ⟨rawFd (aliasN i), td, ?_, rfl⟩
    simp only [verifyFix]
    rw [hlast]
    dsimp only
    rw [if_neg (by simp [rawFd])]
  | succ k ih =>
    intro i n td hik hmid hlast
    have hilt : i < n := by omega
    have hgi := hmid i le_rfl hilt
    obtain ⟨rfd, td', hrec, hraw⟩ :=
      ih (i+1) n td (by omega) (fun j h1 h2 => hmid j (by omega) h2) hlast
    refine ⟨⟨(chainFd i).alias_, rfd.underlyingFields, rfd.fieldType,
      rfd.aggregateFactory, rfd.function, (chainFd i).visible⟩,
      td'.update (aliasN i) ⟨(chainFd i).alias_, rfd.underlyingFields, rfd.fieldType,
        rfd.aggregateFactory, rfd.function, (chainFd i).visible⟩, ?_, hraw⟩
    rw [verifyFix]
    rw [hgi]
    dsimp only
    rw [if_pos (show (chainFd i).fieldType = FieldType.undefined from rfl)]
    rw [show (chainFd i).underlyingFields = [aliasN (i+1)] from rfl]
    dsimp only
    rw [if_neg (fun he => by have := aliasN_inj i (i+1) he; omega)]
    rw [hrec]

/-- C2 (amended): the reference verifier resolves acyclic alias chains of
arbitrary depth — fuel equal to the depth plus one suffices on the
depth-`n` linear chain and yields a raw-typed resolution — and the two base
error cases hold: an absent alias and a pending descriptor whose underlying
reference is itself raise the unresolvable-field error.  Termination does
not extend to cyclic chains (see the two-cycle, on which the recursion
diverges). -/
theorem c2_chain_termination :
    (∀ n, ∃ fd td', verifyFix (n+1) (aliasN 0) (chainTd n) = some (.ok (fd, td'))
       ∧ fd.fieldType = FieldType.raw)
    ∧ (∀ (td : Td) (a : String), td.get a = none →
        verifyFix 1 a td = some (.error (.unresolvable a)))
    ∧ (∀ (td : Td) (a : String) (fd : Fd) (rest : List String),
        td.get a = some fd → fd.fieldType = FieldType.undefined →
        fd.underlyingFields = a :: rest →
        verifyFix 1 a td = some (.error (.unresolvable a))) := by
  refine ⟨?_, ?_, ?_⟩
  · intro n
    exact chain_resolves n 0 n (chainTd n) (by omega)
      (fun j h1 h2 => chainTd_get_lt n j h2) (chainTd_get_last n)
  · intro td a h
    simp only [verifyFix]
    rw [h]
  · intro td a fd rest hget hu hund
    simp only [verifyFix]
    rw [hget]
    dsimp only
    rw [if_pos hu, hund]
    dsimp only
    rw [if_pos rfl]

theorem c2_witness :
    ∃ fd td', verifyFix 3 (aliasN 0) (chainTd 2) = some (.ok (fd, td'))
      ∧ fd.fieldType = FieldType.raw :=
  c2_chain_termination.1 2

/-- C3 counterexample: with the name `foo` registered in both registries,
`__parse_field` raises no error — the aggregate lookup simply wins —
although the claimed "exactly one of the two lookups must succeed"
condition fails (both succeed), refuting that its failure raises
`UnknownCallable`. -/
theorem c3_counterexample :
    ctxBoth.aggReg "foo" = some "aggH" ∧ ctxBoth.funcReg "foo" = some "fnH" ∧
    parseField ctxBoth twitterTd true false
      [.tok "foo", tnode [.tok "text"], .tok "AS", .tok "f"] 0
      = .ok ([⟨"f", ["text"], FieldType.aggregate, some "aggH", none, false⟩,
              ⟨"text", ["text"], FieldType.raw, none, none, false⟩], [], 0) :=
  ⟨rfl, rfl, rfl⟩

theorem aliasedForm_concat (x : TVal) (args : List TVal) (a : String) :
    aliasedForm (x :: args ++ [TVal.tok QueryTokens.AS, TVal.tok a]) = true := by
  simp only [aliasedForm, decide_eq_true_eq]
  constructor
  · simp
  · have hlen : (x :: args ++ [TVal.tok QueryTokens.AS, TVal.tok a]).length
        = args.length + 3 := by simp
    rw [hlen]
    show ((x :: args) ++ [TVal.tok QueryTokens.AS, TVal.tok a])[args.length + 3 - 2]? = _
    rw [List.getElem?_append_right (by simp)]
    simp

theorem getLast_concat2 (x u v : TVal) (args : List TVal) :
    (x :: args ++ [u, v]).getLast? = some v := by
  rw [show x :: args ++ [u, v] = (x :: args ++ [u]) ++ [v] from by simp]
  exact List.getLast?_concat _

theorem take_drop_alias (x u v : TVal) (args : List TVal) :
    (x :: args ++ [u, v]).take ((x :: args ++ [u, v]).length - 2) = x :: args := by
  have h : (x :: args ++ [u, v]).length - 2 = (x :: args).length := by
    simp
  rw [h]
  rw [show x :: args ++ [u, v] = (x :: args) ++ [u, v] from rfl]
  exact List.take_left _ _

/-- C3 (amended): for a multi-token (call) group, the head token is looked
up first in the aggregate registry and, only when that lookup fails, in the
function registry; at least one of the two lookups must succeed — the
`UnknownCallable` error is raised exactly when both fail — and an aggregate
hit takes priority, typing the field Aggregate regardless of what the
function registry would say. -/
theorem c3_registry_dispatch (ctx : Ctx) (fuel : Nat) (td : Td) (aoc mv : Bool)
    (head a : String) (args : List TVal) (counter : Nat)
    (fds : List Fd) (unders vers : List String) (c2 : Nat)
    (hclean : cleanVals (TVal.tok head :: args ++ [TVal.tok QueryTokens.AS, TVal.tok a])
      = TVal.tok head :: args ++ [TVal.tok QueryTokens.AS, TVal.tok a])
    (hne : args ≠ [])
    (hargs : parseArgsGo (fun l c => parseFieldF ctx fuel td false false l c) args counter
      = .ok (fds, unders, vers, c2)) :
    (parseFieldF ctx (fuel+1) td aoc mv
        (TVal.tok head :: args ++ [TVal.tok QueryTokens.AS, TVal.tok a]) counter
        = .error (.unknownCallable head)
      ↔ ctx.aggReg head = none ∧ ctx.funcReg head = none)
    ∧ (∀ ag, ctx.aggReg head = some ag →
        parseFieldF ctx (fuel+1) td aoc mv
          (TVal.tok head :: args ++ [TVal.tok QueryTokens.AS, TVal.tok a]) counter
          = .ok (⟨a, unders, FieldType.aggregate, some ag, none, mv⟩ :: fds, vers, c2))
    ∧ (∀ fn, ctx.aggReg head = none → ctx.funcReg head = some fn →
        parseFieldF ctx (fuel+1) td aoc mv
          (TVal.tok head :: args ++ [TVal.tok QueryTokens.AS, TVal.tok a]) counter
          = .ok (⟨a, unders, FieldType.function_, none, some fn, mv⟩ :: fds, vers, c2)) := by
  rcases args with _ | ⟨b, bs⟩
  · exact absurd rfl hne
  have hred : parseFieldF ctx (fuel+1) td aoc mv
      (TVal.tok head :: (b :: bs) ++ [TVal.tok QueryTokens.AS, TVal.tok a]) counter
      = match ctx.aggReg head with
        | some ag => .ok (⟨a, unders, FieldType.aggregate, some ag, none, mv⟩ :: fds, vers, c2)
        | none =>
          match ctx.funcReg head with
          | some fn =>
            .ok (⟨a, unders, FieldType.function_, none, some fn, mv⟩ :: fds, vers, c2)
          | none => .error (.unknownCallable head) := by
    rw [parseFieldF]
    rw [hclean]
    rw [show aliasStepOf (TVal.tok head :: b :: bs ++ [TVal.tok QueryTokens.AS, TVal.tok a])
        = .ok (some a, TVal.tok head :: b :: bs) from by
      simp only [aliasStepOf]
      rw [if_pos (aliasedForm_concat (TVal.tok head) (b :: bs) a)]
      rw [getLast_concat2 (TVal.tok head) (TVal.tok QueryTokens.AS) (TVal.tok a) (b :: bs)]
      dsimp only
      rw [take_drop_alias (TVal.tok head) (TVal.tok QueryTokens.AS) (TVal.tok a) (b :: bs)]]
    dsimp only
    rw [hargs]
  refine ⟨?_, ?_, ?_⟩
  · constructor
    · intro h
      rw [hred] at h
      cases hag : ctx.aggReg head with
      | some ag =>
        rw [hag] at h
        exact Except.noConfusion h
      | none =>
        cases hfn : ctx.funcReg head with
        | some fn =>
          rw [hag, hfn] at h
          exact Except.noConfusion h
        | none => exact ⟨rfl, rfl⟩
    · rintro ⟨hag, hfn⟩
      rw [hred, hag, hfn]
  · intro ag hag
    rw [hred, hag]
  · intro fn hag hfn
    rw [hred, hag, hfn]

theorem c3_witness :
    parseFieldF sampleCtx 5 twitterTd true false
      (TVal.tok "count" :: [tnode [TVal.tok "text"]]
        ++ [TVal.tok QueryTokens.AS, TVal.tok "c"]) 0
      = .ok ([⟨"c", ["text"], FieldType.aggregate, some "countAgg", none, false⟩,
              ⟨"text", ["text"], FieldType.raw, none, none, false⟩], [], 0) :=
  (c3_registry_dispatch sampleCtx 4 twitterTd true false "count" "c"
      [tnode [TVal.tok "text"]] 0
      [⟨"text", ["text"], FieldType.raw, none, none, false⟩] ["text"] [] 0
      rfl (by simp) rfl).2.1 "countAgg" rfl

theorem parseField_aliased_single (ctx : Ctx) (td : Td) (aoc mv : Bool) (t a : String)
    (c : Nat)
    (hclean : cleanVals [TVal.tok t, TVal.tok QueryTokens.AS, TVal.tok a]
      = [TVal.tok t, TVal.tok QueryTokens.AS, TVal.tok a]) :
    parseField ctx td aoc mv [TVal.tok t, TVal.tok QueryTokens.AS, TVal.tok a] c
      = match td.get t with
        | none => .ok ([⟨a, [t], FieldType.undefined, none, none, mv⟩], [t, a], c)
        | some fd => .ok ([⟨a, fd.underlyingFields, fd.fieldType, fd.aggregateFactory,
            fd.function, mv⟩], [], c) := by
  show parseFieldF ctx (4+1) td aoc mv _ c = _
  rw [parseFieldF]
  rw [hclean]
  rw [show aliasStepOf [TVal.tok t, TVal.tok QueryTokens.AS, TVal.tok a]
      = Except.ok (some a, [TVal.tok t]) from rfl]
  dsimp only
  cases hg : td.get t with
  | none => rfl
  | some fd => rfl

/-- C4: alias resolution is order-independent: a where-clause reference to
an alias `a` not yet in the context is emitted as a `Pending` descriptor
whose single underlying reference is the token itself, with both the raw
token and the chosen alias registered for verification; and processing the
defining select entry `nm AS a` before or after that reference yields the
same verified table, with identical field type / underlying fields /
aggregate / function data for `a`. -/
theorem c4_order_independence (ctx : Ctx) (nm a : String) (d : Fd) (vfuel : Nat)
    (hnm : ctx.builtin.get nm = some d)
    (hdef : d.fieldType ≠ FieldType.undefined)
    (ha : ctx.builtin.get a = none)
    (hcleanSel : cleanVals [TVal.tok nm, TVal.tok QueryTokens.AS, TVal.tok a]
      = [TVal.tok nm, TVal.tok QueryTokens.AS, TVal.tok a])
    (hcleanWh : cleanVals [TVal.tok a, TVal.tok QueryTokens.AS, TVal.tok a]
      = [TVal.tok a, TVal.tok QueryTokens.AS, TVal.tok a]) :
    parseField ctx ctx.builtin true false
        [TVal.tok a, TVal.tok QueryTokens.AS, TVal.tok a] 0
      = .ok ([⟨a, [a], FieldType.undefined, none, none, false⟩], [a, a], 0)
    ∧ collectAndVerify ctx
        [[TVal.tok nm, TVal.tok QueryTokens.AS, TVal.tok a],
         [TVal.tok a, TVal.tok QueryTokens.AS, TVal.tok a]] (vfuel+1) 0
      = some (.ok (⟨[(a, ⟨a, d.underlyingFields, d.fieldType, d.aggregateFactory,
          d.function, false⟩)]⟩, 0))
    ∧ collectAndVerify ctx
        [[TVal.tok a, TVal.tok QueryTokens.AS, TVal.tok a],
         [TVal.tok nm, TVal.tok QueryTokens.AS, TVal.tok a]] (vfuel+1) 0
      = some (.ok (⟨[(a, ⟨a, d.underlyingFields, d.fieldType, d.aggregateFactory,
          d.function, false⟩)]⟩, 0)) := by
  have hpw := parseField_aliased_single ctx ctx.builtin true false a a 0 hcleanWh
  rw [ha] at hpw
  have hps := parseField_aliased_single ctx ctx.builtin true false nm a 0 hcleanSel
  rw [hnm] at hps
  have hverify : verifyAll (vfuel+1) [a, a]
      ⟨[(a, ⟨a, d.underlyingFields, d.fieldType, d.aggregateFactory, d.function, false⟩)]⟩
      = some (.ok ⟨[(a, ⟨a, d.underlyingFields, d.fieldType, d.aggregateFactory,
          d.function, false⟩)]⟩) := by
    have hfix : verifyFix (vfuel+1) a
        ⟨[(a, ⟨a, d.underlyingFields, d.fieldType, d.aggregateFactory, d.function, false⟩)]⟩
        = some (.ok (⟨a, d.underlyingFields, d.fieldType, d.aggregateFactory,
            d.function, false⟩,
          ⟨[(a, ⟨a, d.underlyingFields, d.fieldType, d.aggregateFactory,
            d.function, false⟩)]⟩)) := by
      rw [verifyFix]
      rw [show Td.get ⟨[(a, ⟨a, d.underlyingFields, d.fieldType, d.aggregateFactory,
          d.function, false⟩)]⟩ a
        = some ⟨a, d.underlyingFields, d.fieldType, d.aggregateFactory, d.function, false⟩
        from by simp [Td.get, lookupFd]]
      dsimp only
      rw [if_neg hdef]
    simp only [verifyAll]
    rw [hfix]
    dsimp only
    rw [hfix]
  have haddW : Td.add
      ⟨[(a, ⟨a, d.underlyingFields, d.fieldType, d.aggregateFactory, d.function, false⟩)]⟩
      ⟨a, [a], FieldType.undefined, none, none, false⟩
      = ⟨[(a, ⟨a, d.underlyingFields, d.fieldType, d.aggregateFactory,
          d.function, false⟩)]⟩ := by
    simp only [Td.add, addEntry, if_true]
    rw [if_neg hdef]
  have haddS : Td.add ⟨[(a, ⟨a, [a], FieldType.undefined, none, none, false⟩)]⟩
      ⟨a, d.underlyingFields, d.fieldType, d.aggregateFactory, d.function, false⟩
      = ⟨[(a, ⟨a, d.underlyingFields, d.fieldType, d.aggregateFactory,
          d.function, false⟩)]⟩ := by
    simp only [Td.add, addEntry, if_true]
  refine ⟨hpw, ?_, ?_⟩
  · simp only [collectAndVerify, firstPass]
    rw [hps]
    dsimp only
    rw [hpw]
    dsimp only
    simp only [Td.addList, List.foldl]
    rw [show emptyTd.add ⟨a, d.underlyingFields, d.fieldType, d.aggregateFactory,
        d.function, false⟩
      = (⟨[(a, ⟨a, d.underlyingFields, d.fieldType, d.aggregateFactory,
          d.function, false⟩)]⟩ : Td) from rfl]
    rw [haddW]
    simp only [List.nil_append, List.append_nil]
    rw [hverify]
  · simp only [collectAndVerify, firstPass]
    rw [hpw]
    dsimp only
    rw [hps]
    dsimp only
    simp only [Td.addList, List.foldl]
    rw [show emptyTd.add ⟨a, [a], FieldType.undefined, none, none, false⟩
      = (⟨[(a, ⟨a, [a], FieldType.undefined, none, none, false⟩)]⟩ : Td) from rfl]
    rw [haddS]
    simp only [List.nil_append, List.append_nil]
    rw [hverify]

theorem c4_witness :
    collectAndVerify sampleCtx
        [[TVal.tok "text", TVal.tok QueryTokens.AS, TVal.tok "t"],
         [TVal.tok "t", TVal.tok QueryTokens.AS, TVal.tok "t"]] 1 0
      = some (.ok (⟨[("t", ⟨"t", ["text"], FieldType.raw, none, none, false⟩)]⟩, 0))
    ∧ collectAndVerify sampleCtx
        [[TVal.tok "t", TVal.tok QueryTokens.AS, TVal.tok "t"],
         [TVal.tok "text", TVal.tok QueryTokens.AS, TVal.tok "t"]] 1 0
      = some (.ok (⟨[("t", ⟨"t", ["text"], FieldType.raw, none, none, false⟩)]⟩, 0)) :=
  ⟨(c4_order_independence sampleCtx "text" "t" (rawFd "text") 0 rfl (by decide)
      rfl rfl rfl).2.1,
   (c4_order_independence sampleCtx "text" "t" (rawFd "text") 0 rfl (by decide)
      rfl rfl rfl).2.2⟩

theorem parseArgsGo_error_shape
    (pf : List TVal → Nat → Except QErr (List Fd × List String × Nat))
    (hpf : ∀ l c e, pf l c = .error e → e ≠ QErr.aggregateWithoutWindow) :
    ∀ (args : List TVal) (c : Nat) (e : QErr),
      parseArgsGo pf args c = .error e → e ≠ QErr.aggregateWithoutWindow := by
  intro args
  induction args with
  | nil =>
    intro c e h
    cases h
  | cons a rest ih =>
    intro c e h
    simp only [parseArgsGo] at h
    cases a with
    | tok s =>
      injection h with he
      subst he
      decide
    | lst l =>
      dsimp only at h
      cases hp : pf l.toList c with
      | error e' =>
        rw [hp] at h
        dsimp only at h
        injection h with he
        subst he
        exact hpf l.toList c e' hp
      | ok r =>
        obtain ⟨fds, ver, c'⟩ := r
        rw [hp] at h
        dsimp only at h
        cases hr : parseArgsGo pf rest c' with
        | error e' =>
          rw [hr] at h
          dsimp only at h
          injection h with he
          subst he
          exact ih c' e' hr
        | ok r2 =>
          obtain ⟨a2, b2, c2, d2⟩ := r2
          rw [hr] at h
          dsimp only at h
          cases h

theorem aliasStepOf_error_shape (cleaned : List TVal) (e : QErr)
    (h : aliasStepOf cleaned = .error e) : e = QErr.typeError := by
  simp only [aliasStepOf] at h
  by_cases hform : aliasedForm cleaned = true
  · rw [if_pos hform] at h
    cases hlast : cleaned.getLast? with
    | none =>
      rw [hlast] at h
      injection h with he
      exact he.symm
    | some v =>
      cases v with
      | tok s =>
        rw [hlast] at h
        cases h
      | lst f =>
        rw [hlast] at h
        injection h with he
        exact he.symm
  · rw [if_neg hform] at h
    cases h

theorem parseFieldF_error_shape (ctx : Ctx) : ∀ (fuel : Nat) (td : Td) (aoc mv : Bool)
    (field : List TVal) (c : Nat) (e : QErr),
    parseFieldF ctx fuel td aoc mv field c = .error e →
    e ≠ QErr.aggregateWithoutWindow := by
  intro fuel
  induction fuel with
  | zero =>
    intro td aoc mv field c e h
    injection h with he
    subst he
    decide
  | succ fuel ih =>
    intro td aoc mv field c e h
    simp only [parseFieldF] at h
    cases hstep : aliasStepOf (cleanVals field) with
    | error e1 =>
      rw [hstep] at h
      dsimp only at h
      injection h with he
      rw [← he, aliasStepOf_error_shape (cleanVals field) e1 hstep]
      decide
    | ok r =>
      obtain ⟨aliasO, body⟩ := r
      rw [hstep] at h
      dsimp only at h
      rcases body with _ | ⟨x, _ | ⟨y, rest⟩⟩
      · injection h with he
        subst he
        decide
      · cases x with
        | lst f =>
          injection h with he
          subst he
          decide
        | tok t =>
          dsimp only at h
          cases hg : td.get t with
          | none => rw [hg] at h; cases h
          | some fd => rw [hg] at h; cases h
      · cases x with
        | lst f =>
          injection h with he
          subst he
          decide
        | tok head =>
          cases aliasO with
          | some a =>
            dsimp only at h
            cases hpa : parseArgsGo (fun l c => parseFieldF ctx fuel td false false l c)
                (y :: rest) c with
            | error e' =>
              rw [hpa] at h
              dsimp only at h
              injection h with he
              subst he
              exact parseArgsGo_error_shape _
                (fun l c' e'' h'' => ih td false false l c' e'' h'') (y :: rest) c e' hpa
            | ok r2 =>
              obtain ⟨pfds, unders, vers, c2⟩ := r2
              rw [hpa] at h
              dsimp only at h
              cases hag : ctx.aggReg head with
              | some ag => rw [hag] at h; cases h
              | none =>
                rw [hag] at h
                dsimp only at h
                cases hfn : ctx.funcReg head with
                | some fn => rw [hfn] at h; cases h
                | none =>
                  rw [hfn] at h
                  injection h with he
                  subst he
                  exact fun hcon => QErr.noConfusion hcon
          | none =>
            dsimp only at h
            cases aoc with
            | true =>
              simp only [if_pos] at h
              injection h with he
              subst he
              decide
            | false =>
              simp only [Bool.false_eq_true, if_false] at h
              cases hpa : parseArgsGo (fun l c => parseFieldF ctx fuel td false false l c)
                  (y :: rest) (c+1) with
              | error e' =>
                rw [hpa] at h
                dsimp only at h
                injection h with he
                subst he
                exact parseArgsGo_error_shape _
                  (fun l c' e'' h'' => ih td false false l c' e'' h'') (y :: rest) (c+1) e' hpa
              | ok r2 =>
                obtain ⟨pfds, unders, vers, c2⟩ := r2
                rw [hpa] at h
                dsimp only at h
                cases hag : ctx.aggReg head with
                | some ag => rw [hag] at h; cases h
                | none =>
                  rw [hag] at h
                  dsimp only at h
                  cases hfn : ctx.funcReg head with
                  | some fn => rw [hfn] at h; cases h
                  | none =>
                    rw [hfn] at h
                    injection h with he
                    subst he
                    exact fun hcon => QErr.noConfusion hcon

theorem buildGroupD_error_shape (ctx : Ctx) (td : Td) : ∀ (fs : List (List TVal)) (gd : Td)
    (c : Nat) (e : QErr),
    buildGroupD ctx td fs gd c = .error e → e ≠ QErr.aggregateWithoutWindow := by
  intro fs
  induction fs with
  | nil =>
    intro gd c e h
    cases h
  | cons f rest ih =>
    intro gd c e h
    simp only [buildGroupD] at h
    cases hp : parseField ctx td true true f c with
    | error e' =>
      rw [hp] at h
      dsimp only at h
      injection h with he
      subst he
      exact parseFieldF_error_shape ctx (sizeVals f + 1) td true true f c e' hp
    | ok r =>
      obtain ⟨fds, v, c'⟩ := r
      rw [hp] at h
      dsimp only at h
      exact ih _ _ _ h

/-- C6: compilation raises `AggregateWithoutWindow` exactly when at least
one select field resolved to Aggregate type and no window clause was
supplied; with aggregates and a window present, the predicate tree is
wrapped in a grouped node carrying the group-by descriptor, the ordered
aggregate list and the window specification, with the select descriptor
attached. -/
theorem c6_aggregate_window (ctx : Ctx) (tree : QTree) (sd : Td) (aggs : List Fd)
    (groupFs : List (List TVal)) (window : Option (List TVal)) (td : Td) (c : Nat) :
    (finishTree ctx tree sd aggs groupFs window td c = .error .aggregateWithoutWindow
      ↔ aggs ≠ [] ∧ window = none)
    ∧ (∀ w gd c', aggs ≠ [] → window = some w →
        buildGroupD ctx td groupFs emptyTd c = .ok (gd, c') →
        checkUngrouped sd gd = .ok () →
        finishTree ctx tree sd aggs groupFs window td c
          = .ok (.groupBy tree gd aggs w, sd, c')) := by
  constructor
  · constructor
    · intro h
      cases haggs : aggs with
      | nil =>
        rw [haggs] at h
        cases h
      | cons a rest =>
        cases hwin : window with
        | none => exact ⟨by simp [haggs], rfl⟩
        | some w =>
          exfalso
          rw [haggs, hwin] at h
          simp only [finishTree] at h
          cases hg : buildGroupD ctx td groupFs emptyTd c with
          | error e =>
            rw [hg] at h
            dsimp only at h
            injection h with he
            exact buildGroupD_error_shape ctx td groupFs emptyTd c e hg he
          | ok r =>
            obtain ⟨gd, c'⟩ := r
            rw [hg] at h
            dsimp only at h
            cases hc : checkUngrouped sd gd with
            | error e' =>
              rw [hc] at h
              dsimp only at h
              injection h with he
              obtain ⟨a', fd, hae, _⟩ := checkUngroupedGo_error sd gd sd.aliases e' hc
              rw [he] at hae
              cases hae
            | ok u =>
              cases u
              rw [hc] at h
              dsimp only at h
              cases h
    · rintro ⟨hne, hwin⟩
      subst hwin
      cases aggs with
      | nil => exact absurd rfl hne
      | cons a rest => rfl
  · intro w gd c' hne hwin hg hc
    subst hwin
    cases aggs with
    | nil => exact absurd rfl hne
    | cons a rest =>
      simp only [finishTree]
      rw [hg]
      dsimp only
      rw [hc]

theorem c6_witness :
    finishTree sampleCtx .allowAll emptyTd [rawFd "c"] [] none emptyTd 0
      = .error .aggregateWithoutWindow :=
  (c6_aggregate_window sampleCtx .allowAll emptyTd [rawFd "c"] [] none emptyTd 0).1.mpr
    ⟨by simp, rfl⟩
